import Mathlib

/-!
Verification development for the export serialization engine of
`prospect-command-center` (`src/rust/src/export.rs`) and the HTML metadata
extractor (`src/rust/src/metadata.rs`).

Modelling conventions:
* A Python object handed through PyO3 (`PyObject`) is modelled by the
  inductive `PyVal`; a prospect record (`HashMap<String, PyObject>` built
  from a Python dict, hence unique string keys) is an association list
  `PyDict` queried with `List.lookup`.
* `f64` is modelled by `F64`: a finite value is idealized as the exact
  rational it denotes (every finite `f64` is a dyadic rational, so it has a
  finite decimal expansion); NaN and the two infinities are separate
  constructors.  Decimal formatting is therefore exact-decimal formatting of
  the rational.  Rust's `{:.1}` fixed formatting rounds the exact value to
  the nearest multiple of 1/10 with ties to even; `f64::round` rounds half
  away from zero; both are modelled on ℚ.
* PyO3 extraction semantics mirrored by the `pyExtract*` functions:
  an `extract` of an optional returns Ok(None) on Python `None`; `f64` extraction
  also accepts Python ints and bools (via `__float__`/`__index__`), `i64`
  extraction also accepts bools (int subclass) but not floats, and `bool`
  extraction accepts exactly Python booleans.  A failed extraction is
  `Option.none` (the Rust code discards the error with `.ok()`).
-/

set_option maxRecDepth 100000

/-- Model of a Rust `f64`: a finite value (idealized as the exact rational it
denotes) or one of the non-finite values. -/
inductive F64 where
  | finite (q : ℚ)
  | nan
  | inf
  | neginf
deriving DecidableEq

/-- Model of a Python value (`PyObject`) as seen through PyO3 extraction. -/
inductive PyVal where
  | none
  | bool (b : Bool)
  | int (n : ℤ)
  | float (v : F64)
  | str (s : String)
  | list (xs : List PyVal)
  | dict (entries : List (String × PyVal))

/-- A prospect record: `HashMap<String, PyObject>` built from a Python dict
(string keys, unique), modelled as an association list. -/
def PyDict : Type := List (String × PyVal)

/-- Key lookup in a record, models `map.get(key)`. -/
def PyDict.get (m : PyDict) (key : String) : Option PyVal :=
  List.lookup key m

/-- Models `obj.extract::<Option<String>>(py).ok()`: Python `None` gives
`Ok(None)`, a Python `str` gives `Ok(Some s)`, anything else is an error
(collapsed to `Option.none` by `.ok()`). -/
def pyExtractOptString : PyVal → Option (Option String)
  | .none => some Option.none
  | .str s => some (some s)
  | _ => Option.none

/-- Models `obj.extract::<Option<f64>>(py).ok()`.  PyO3 `f64` extraction
accepts Python floats, and falls back to `__float__`/`__index__`, so Python
ints and bools also convert. -/
def pyExtractOptF64 : PyVal → Option (Option F64)
  | .none => some Option.none
  | .float v => some (some v)
  | .int n => some (some (.finite (n : ℚ)))
  | .bool b => some (some (.finite (if b then 1 else 0)))
  | _ => Option.none

/-- Models `obj.extract::<Option<i64>>(py).ok()`.  PyO3 `i64` extraction uses
`__index__`, so Python bools (an int subclass) convert; floats do not. -/
def pyExtractOptI64 : PyVal → Option (Option ℤ)
  | .none => some Option.none
  | .int n => some (some n)
  | .bool b => some (some (if b then 1 else 0))
  | _ => Option.none

/-- Models `obj.extract::<bool>(py).ok()`: exactly Python booleans convert. -/
def pyExtractBool : PyVal → Option Bool
  | .bool b => some b
  | _ => Option.none

/-- Models `obj.extract::<Option<bool>>(py).ok()`. -/
def pyExtractOptBool : PyVal → Option (Option Bool)
  | .none => some Option.none
  | .bool b => some (some b)
  | _ => Option.none

/-- Models PyO3 extraction of one `String` element of a `Vec<String>`. -/
def pyStrOnly : PyVal → Option String
  | .str s => some s
  | _ => Option.none

/-- Element-wise extraction of a `Vec<String>`: the whole extraction fails
on the first non-string element. -/
def strListM : List PyVal → Option (List String)
  | [] => some []
  | v :: vs =>
      match pyStrOnly v with
      | some s => (strListM vs).map (s :: ·)
      | Option.none => Option.none

/-- Models `obj.extract::<Option<Vec<String>>>(py).ok()`: a Python list whose
elements are all strings converts; a single non-string element fails the
whole extraction. -/
def pyExtractStringList : PyVal → Option (Option (List String))
  | .none => some Option.none
  | .list xs => (strListM xs).map some
  | _ => Option.none

/-- Models `obj.extract::<Option<HashMap<String, PyObject>>>(py).ok()`: a
Python dict (string keys) converts, anything else fails. -/
def pyExtractDict : PyVal → Option (Option PyDict)
  | .none => some Option.none
  | .dict d => some (some d)
  | _ => Option.none

/-- `extract_opt_string` from `export.rs`:
`map.get(key).and_then(|obj| obj.extract::<Option<String>>(py).ok()).flatten()`. -/
def extract_opt_string (m : PyDict) (key : String) : Option String :=
  ((m.get key).bind pyExtractOptString).join

/-- `extract_opt_f64` from `export.rs`. -/
def extract_opt_f64 (m : PyDict) (key : String) : Option F64 :=
  ((m.get key).bind pyExtractOptF64).join

/-- `extract_opt_i64` from `export.rs`. -/
def extract_opt_i64 (m : PyDict) (key : String) : Option ℤ :=
  ((m.get key).bind pyExtractOptI64).join

/-- `extract_bool` from `export.rs`:
`map.get(key).and_then(|obj| obj.extract::<bool>(py).ok()).unwrap_or(false)`. -/
def extract_bool (m : PyDict) (key : String) : Bool :=
  ((m.get key).bind pyExtractBool).getD false

/-- `extract_opt_bool` from `export.rs`. -/
def extract_opt_bool (m : PyDict) (key : String) : Option Bool :=
  ((m.get key).bind pyExtractOptBool).join

/-- `extract_string_list` from `export.rs` (`.flatten().unwrap_or_default()`). -/
def extract_string_list (m : PyDict) (key : String) : List String :=
  (((m.get key).bind pyExtractStringList).join).getD []

/-- `str_or_empty` from `export.rs`. -/
def str_or_empty (opt : Option String) : String :=
  opt.getD ""

/-- `yes_no` from `export.rs`. -/
def yes_no (val : Bool) : String :=
  if val then "Yes" else "No"

/-- `extract_signals` from `export.rs`. -/
def extract_signals (m : PyDict) : Option PyDict :=
  ((m.get "signals").bind pyExtractDict).join

/-- Decimal digit character (`d` is always reduced mod 10). -/
def digitChar (d : Nat) : Char :=
  Char.ofNat (48 + d % 10)

/-- Decimal digits of a natural number, fuel-driven; fuel `n` always
suffices since a number has at most as many extra digits as divisions by
ten it survives. -/
def natCharsAux : Nat → Nat → List Char
  | 0, n => [digitChar n]
  | fuel + 1, n =>
      if n < 10 then [digitChar n]
      else natCharsAux fuel (n / 10) ++ [digitChar (n % 10)]

/-- Decimal rendering of a natural number. -/
def natChars (n : Nat) : List Char :=
  natCharsAux n n

def natStr (n : Nat) : String :=
  String.mk (natChars n)

/-- Decimal rendering of an integer (Rust `i64::to_string`). -/
def intChars (i : ℤ) : List Char :=
  if i < 0 then '-' :: natChars i.natAbs else natChars i.natAbs

def intStr (i : ℤ) : String :=
  String.mk (intChars i)

/-- Nearest integer to the fraction `a / b` (for `b > 0`) with ties broken
to the even neighbour: the rounding Rust's fixed-precision float formatting
applies to the exact value.  Computed with integer arithmetic so that the
kernel can evaluate it. -/
def nearestHE (a b : ℤ) : ℤ :=
  if 2 * (a % b) < b then a / b
  else if b < 2 * (a % b) then a / b + 1
  else if (a / b) % 2 = 0 then a / b else a / b + 1

/-- Nearest integer to the fraction `a / b` (for `b > 0`) with ties rounded
away from zero: the rounding of `f64::round`. -/
def nearestHA (a b : ℤ) : ℤ :=
  if 2 * (a % b) < b then a / b
  else if b < 2 * (a % b) then a / b + 1
  else if 0 ≤ a / b then a / b + 1 else a / b

/-- The least number of decimal digits needed to write `q` exactly (its
reduced denominator divides that power of ten), searched up to 1100: a
finite `f64` is `m / 2 ^ e` with `e ≤ 1074`, so at most 1074 fractional
decimal digits are ever needed. -/
def decExp? (q : ℚ) : Option Nat :=
  (List.range 1101).find? fun k => 10 ^ k % q.den = 0

/-- Left-pad a digit list with zeros to width `k`. -/
def padZeros (k : Nat) (ds : List Char) : List Char :=
  List.replicate (k - ds.length) '0' ++ ds

/-- Shortest plain decimal rendering of a nonnegative rational: used for
Rust's `f64` `Display` (`forceDot = false`: integral values print with no
decimal point) and for the `ryu` rendering serde_json uses for JSON numbers
(`forceDot = true`: integral values print a trailing `.0`).  The final
branch, a rational with no finite decimal expansion, cannot arise from a
binary `f64` value. -/
def decCore (q : ℚ) (forceDot : Bool) : List Char :=
  match decExp? q with
  | some k =>
      let n := q.num.natAbs * 10 ^ k / q.den
      if k = 0 then natChars n ++ (if forceDot then ['.', '0'] else [])
      else natChars (n / 10 ^ k) ++ '.' :: padZeros k (natChars (n % 10 ^ k))
  | Option.none => natChars q.num.natAbs ++ '/' :: natChars q.den

/-- Sign-aware shortest decimal rendering of a rational. -/
def decRenderChars (q : ℚ) (forceDot : Bool) : List Char :=
  if q.num < 0 then '-' :: decCore (-q) forceDot else decCore q forceDot

/-- Rust `f64` `Display` (`v.to_string()`), idealized to exact shortest
decimal; integral values render with no decimal point. -/
def f64Display : F64 → String
  | .finite q => String.mk (decRenderChars q false)
  | .nan => "NaN"
  | .inf => "inf"
  | .neginf => "-inf"

/-- Rust fixed-precision formatting with one fractional digit on a
nonnegative rational: round the exact value times ten to the nearest
integer (ties to even) and print exactly one digit after the point. -/
def fmtFixed1Nonneg (q : ℚ) : String :=
  let n := (nearestHE (10 * q.num) q.den).toNat
  natStr (n / 10) ++ "." ++ natStr (n % 10)

/-- Rust fixed-precision formatting with one fractional digit over a full
`f64` (the format specifier colon-dot-one used for `priority_score`). -/
def fmtFixed1 : F64 → String
  | .finite q => if q.num < 0 then "-" ++ fmtFixed1Nonneg (-q) else fmtFixed1Nonneg q
  | .nan => "NaN"
  | .inf => "inf"
  | .neginf => "-inf"

/-- The fixed CSV column list `CSV_FIELDS` from `export.rs`. -/
def CSV_FIELDS : List String :=
  ["name", "website", "phone", "address", "emails",
   "rating", "review_count", "fit_score", "opportunity_score",
   "priority_score", "opportunity_notes", "found_in_ads",
   "found_in_maps", "found_in_organic", "cms",
   "has_google_analytics", "has_booking_system"]

/-- Does the csv crate's writer (default configuration, quoting only when
necessary) quote this field: it contains the delimiter, the quote character,
or a line-break byte. -/
def csvNeedsQuote (s : String) : Bool :=
  s.data.any fun c => c = ',' || c = '"' || c = '\n' || c = '\r'

/-- Quote a field, doubling embedded quote characters. -/
def csvQuote (s : String) : String :=
  "\"" ++ String.mk (s.data.flatMap fun c => if c = '"' then ['"', '"'] else [c]) ++ "\""

/-- Escape one CSV field exactly when the writer needs to. -/
def csvEscape (s : String) : String :=
  if csvNeedsQuote s then csvQuote s else s

/-- Join strings with a separator (Rust `Vec::join`). -/
def strJoinSep (sep : String) : List String → String
  | [] => ""
  | [x] => x
  | x :: xs => x ++ sep ++ strJoinSep sep xs

/-- Concatenation of a list of strings. -/
def strConcat : List String → String
  | [] => ""
  | x :: xs => x ++ strConcat xs

/-- One written CSV record: escaped cells joined with commas plus the
writer's `\n` record terminator. -/
def csvLine (fields : List String) : String :=
  strJoinSep "," (fields.map csvEscape) ++ "\n"

/-- The 17 cells written for one prospect: the `record` vector built in
`serialize_prospects_csv`. -/
def prospectCsvRecord (p : PyDict) : List String :=
  let signals := extract_signals p
  let cms := (signals.bind fun s => extract_opt_string s "cms").getD ""
  let has_analytics :=
    (signals.map fun s => (extract_opt_bool s "has_google_analytics").getD false).getD false
  let has_booking :=
    (signals.map fun s => (extract_opt_bool s "has_booking_system").getD false).getD false
  let emails := strJoinSep "; " (extract_string_list p "emails")
  let rating := ((extract_opt_f64 p "rating").map f64Display).getD ""
  let review_count := ((extract_opt_i64 p "review_count").map intStr).getD ""
  let fit_score := ((extract_opt_i64 p "fit_score").map intStr).getD "0"
  let opp_score := ((extract_opt_i64 p "opportunity_score").map intStr).getD "0"
  let priority := ((extract_opt_f64 p "priority_score").map fmtFixed1).getD "0.0"
  [str_or_empty (extract_opt_string p "name"),
   str_or_empty (extract_opt_string p "website"),
   str_or_empty (extract_opt_string p "phone"),
   str_or_empty (extract_opt_string p "address"),
   emails, rating, review_count, fit_score, opp_score, priority,
   str_or_empty (extract_opt_string p "opportunity_notes"),
   yes_no (extract_bool p "found_in_ads"),
   yes_no (extract_bool p "found_in_maps"),
   yes_no (extract_bool p "found_in_organic"),
   cms,
   yes_no has_analytics,
   yes_no has_booking]

/-- `serialize_prospects_csv` from `export.rs`: header record then one
record per prospect, in input order.  (The Rust error paths concern only the
in-memory writer plumbing and are unreachable for valid UTF-8 cells.) -/
def serialize_prospects_csv (ps : List PyDict) : String :=
  csvLine CSV_FIELDS ++ strConcat (ps.map fun p => csvLine (prospectCsvRecord p))

mutual
/-- serde_json `Value` as the engine emits it.  Integer and finite float
numbers are separate constructors because serde renders them differently;
non-finite floats never reach a `Value` (the `from_f64` guard maps them to
`Null` first).  Object fields are kept in insertion order; serde's map
sorts keys alphabetically when encoding, which none of the verified claims
observe. -/
inductive Json where
  | null
  | bool (b : Bool)
  | int (n : ℤ)
  | float (q : ℚ)
  | str (s : String)
  | arr (xs : JsonArr)
  | obj (fields : JsonObj)
/-- A list of JSON values (array elements). -/
inductive JsonArr where
  | nil
  | cons (hd : Json) (tl : JsonArr)
/-- A list of key-value pairs (object fields). -/
inductive JsonObj where
  | nil
  | cons (key : String) (val : Json) (tl : JsonObj)
end

def JsonArr.ofList : List Json → JsonArr
  | [] => .nil
  | x :: xs => .cons x (JsonArr.ofList xs)

def JsonArr.toList : JsonArr → List Json
  | .nil => []
  | .cons x xs => x :: xs.toList

def JsonArr.length : JsonArr → Nat
  | .nil => 0
  | .cons _ xs => xs.length + 1

/-- First-match key lookup in an object. -/
def JsonObj.lookup : JsonObj → String → Option Json
  | .nil, _ => Option.none
  | .cons k v t, key => if k = key then some v else t.lookup key

def JsonObj.hasKey (o : JsonObj) (key : String) : Bool :=
  (o.lookup key).isSome

/-- Key access on a JSON value (none on non-objects). -/
def Json.getKey? : Json → String → Option Json
  | .obj fields, key => fields.lookup key
  | _, _ => Option.none

/-- `json_opt_str` from `export.rs`. -/
def json_opt_str : Option String → Json
  | some s => .str s
  | Option.none => .null

/-- `json_opt_i64` from `export.rs`. -/
def json_opt_i64 : Option ℤ → Json
  | some v => .int v
  | Option.none => .null

/-- `serde_json::Number::from_f64`: defined only for finite values. -/
def numberFromF64 : F64 → Option ℚ
  | .finite q => some q
  | _ => Option.none

/-- Conversion of one `f64` to a `Value` through the `from_f64` guard
(`Number::from_f64(v).map(Value::Number).unwrap_or(Value::Null)`). -/
def jsonOfF64 (v : F64) : Json :=
  ((numberFromF64 v).map Json.float).getD .null

/-- `json_opt_f64` from `export.rs`. -/
def json_opt_f64 : Option F64 → Json
  | some v => jsonOfF64 v
  | Option.none => .null

/-- serde serialization of an `Option<bool>` field inside the `json!`
macro: `None` becomes `null`. -/
def json_opt_bool : Option Bool → Json
  | some b => .bool b
  | Option.none => .null

/-- Models `(v * 100.0).round() / 100.0` on an `f64`: exact on finite
values (`f64::round` ties away from zero); NaN and the infinities propagate
unchanged through multiply, `round` and divide. -/
def roundTo2 : F64 → F64
  | .finite q => .finite (mkRat (nearestHA (100 * q.num) q.den) 100)
  | v => v

/-- The `signals` sub-object built by `prospect_to_json_value` when the
signals sub-record is present. -/
def signalsToJson (sig : PyDict) : Json :=
  .obj (.cons "reachable" (json_opt_bool (extract_opt_bool sig "reachable"))
    (.cons "cms" (json_opt_str (extract_opt_string sig "cms"))
      (.cons "tracking"
        (.obj (.cons "google_analytics" (json_opt_bool (extract_opt_bool sig "has_google_analytics"))
          (.cons "facebook_pixel" (json_opt_bool (extract_opt_bool sig "has_facebook_pixel"))
            (.cons "google_ads" (json_opt_bool (extract_opt_bool sig "has_google_ads")) .nil))))
        (.cons "has_booking_system" (json_opt_bool (extract_opt_bool sig "has_booking_system"))
          (.cons "load_time_ms" (json_opt_i64 (extract_opt_i64 sig "load_time_ms"))
            (.cons "title" (json_opt_str (extract_opt_string sig "title"))
              (.cons "meta_description" (json_opt_str (extract_opt_string sig "meta_description"))
                (.cons "social_links"
                  (.arr (JsonArr.ofList ((extract_string_list sig "social_links").map Json.str)))
                  .nil))))))))

/-- The `serp_presence` sub-object. -/
def serpToJson (p : PyDict) : Json :=
  .obj (.cons "ads"
    (.obj (.cons "found" (.bool (extract_bool p "found_in_ads"))
      (.cons "position" (json_opt_i64 (extract_opt_i64 p "ad_position")) .nil)))
    (.cons "maps"
      (.obj (.cons "found" (.bool (extract_bool p "found_in_maps"))
        (.cons "position" (json_opt_i64 (extract_opt_i64 p "maps_position")) .nil)))
      (.cons "organic"
        (.obj (.cons "found" (.bool (extract_bool p "found_in_organic"))
          (.cons "position" (json_opt_i64 (extract_opt_i64 p "organic_position")) .nil)))
        .nil)))

/-- The `google_business` sub-object. -/
def googleBusinessToJson (p : PyDict) : Json :=
  .obj (.cons "rating" (json_opt_f64 (extract_opt_f64 p "rating"))
    (.cons "review_count" (json_opt_i64 (extract_opt_i64 p "review_count"))
      (.cons "category" (json_opt_str (extract_opt_string p "category")) .nil)))

/-- The `scores` sub-object: `priority` is the rounded `f64` pushed through
the `json!` macro's `f64`-to-`Value` conversion. -/
def scoresToJson (p : PyDict) : Json :=
  .obj (.cons "fit" (.int ((extract_opt_i64 p "fit_score").getD 0))
    (.cons "opportunity" (.int ((extract_opt_i64 p "opportunity_score").getD 0))
      (.cons "priority"
        (jsonOfF64 (((extract_opt_f64 p "priority_score").map roundTo2).getD (.finite 0)))
        .nil)))

/-- `prospect_to_json_value` from `export.rs`: the per-record JSON object;
the `signals` key is inserted only when the signals sub-record extracted. -/
def prospect_to_json_value (p : PyDict) : Json :=
  .obj (.cons "name" (json_opt_str (extract_opt_string p "name"))
    (.cons "website" (json_opt_str (extract_opt_string p "website"))
      (.cons "domain" (json_opt_str (extract_opt_string p "domain"))
        (.cons "phone" (json_opt_str (extract_opt_string p "phone"))
          (.cons "address" (json_opt_str (extract_opt_string p "address"))
            (.cons "emails" (.arr (JsonArr.ofList ((extract_string_list p "emails").map Json.str)))
              (.cons "serp_presence" (serpToJson p)
                (.cons "google_business" (googleBusinessToJson p)
                  (.cons "scores" (scoresToJson p)
                    (.cons "opportunity_notes" (json_opt_str (extract_opt_string p "opportunity_notes"))
                      (.cons "source" (json_opt_str (extract_opt_string p "source"))
                        (.cons "scraped_at" (json_opt_str (extract_opt_string p "scraped_at"))
                          (match extract_signals p with
                           | some sig => .cons "signals" (signalsToJson sig) .nil
                           | Option.none => .nil)))))))))))))

/-- The `Vec<serde_json::Value>` built by `serialize_prospects_json` before
encoding to text. -/
def prospectsJsonItems (ps : List PyDict) : JsonArr :=
  JsonArr.ofList (ps.map prospect_to_json_value)

/-- Lowercase hex digit character used by JSON unicode escapes. -/
def hexDigitChar (d : Nat) : Char :=
  if d % 16 < 10 then Char.ofNat (48 + d % 16) else Char.ofNat (87 + d % 16)

/-- serde_json's escaping of one character inside a string literal: quote,
backslash, the five short control escapes, other control characters as
4-digit unicode escapes, everything else verbatim. -/
def escChar (c : Char) : List Char :=
  if c = '"' then ['\\', '"']
  else if c = '\\' then ['\\', '\\']
  else if c = '\x08' then ['\\', 'b']
  else if c = '\x09' then ['\\', 't']
  else if c = '\x0a' then ['\\', 'n']
  else if c = '\x0c' then ['\\', 'f']
  else if c = '\x0d' then ['\\', 'r']
  else if c.toNat < 32 then
    ['\\', 'u', '0', '0', hexDigitChar (c.toNat / 16), hexDigitChar (c.toNat % 16)]
  else [c]

/-- Escaped content of a JSON string literal. -/
def escStr (s : List Char) : List Char :=
  s.flatMap escChar

/-- Rendering of a JSON string literal, quotes included. -/
def renderStr (s : String) : List Char :=
  '"' :: (escStr s.data ++ ['"'])

mutual
/-- Compact serde_json encoding (`serde_json::to_string`). -/
def renderC : Json → List Char
  | .null => "null".data
  | .bool true => "true".data
  | .bool false => "false".data
  | .int n => intChars n
  | .float q => decRenderChars q true
  | .str s => renderStr s
  | .arr .nil => ['[', ']']
  | .arr (.cons h t) => '[' :: (renderC h ++ (renderCArrTail t ++ [']']))
  | .obj .nil => ['\x7b', '\x7d']
  | .obj (.cons k v t) =>
      '\x7b' :: (renderStr k ++ ':' :: (renderC v ++ (renderCObjTail t ++ ['\x7d'])))
/-- Remaining elements of a compact array, each preceded by a comma. -/
def renderCArrTail : JsonArr → List Char
  | .nil => []
  | .cons h t => ',' :: (renderC h ++ renderCArrTail t)
/-- Remaining fields of a compact object, each preceded by a comma. -/
def renderCObjTail : JsonObj → List Char
  | .nil => []
  | .cons k v t => ',' :: (renderStr k ++ ':' :: (renderC v ++ renderCObjTail t))
end

/-- Indentation of the pretty encoder: two spaces per nesting level. -/
def ind (l : Nat) : List Char :=
  List.replicate (2 * l) ' '

mutual
/-- Pretty serde_json encoding (`serde_json::to_string_pretty`): newline
and indentation before every element, a space after each object colon,
empty arrays and objects kept on one line. -/
def renderP : Nat → Json → List Char
  | _, .null => "null".data
  | _, .bool true => "true".data
  | _, .bool false => "false".data
  | _, .int n => intChars n
  | _, .float q => decRenderChars q true
  | _, .str s => renderStr s
  | _, .arr .nil => ['[', ']']
  | l, .arr (.cons h t) =>
      '[' :: '\n' :: (ind (l + 1) ++ (renderP (l + 1) h ++
        (renderPArrTail (l + 1) t ++ ('\n' :: (ind l ++ [']'])))))
  | _, .obj .nil => ['\x7b', '\x7d']
  | l, .obj (.cons k v t) =>
      '\x7b' :: '\n' :: (ind (l + 1) ++ (renderStr k ++ ':' :: ' ' :: (renderP (l + 1) v ++
        (renderPObjTail (l + 1) t ++ ('\n' :: (ind l ++ ['\x7d']))))))
/-- Remaining elements of a pretty array. -/
def renderPArrTail : Nat → JsonArr → List Char
  | _, .nil => []
  | l, .cons h t => ',' :: '\n' :: (ind l ++ (renderP l h ++ renderPArrTail l t))
/-- Remaining fields of a pretty object. -/
def renderPObjTail : Nat → JsonObj → List Char
  | _, .nil => []
  | l, .cons k v t =>
      ',' :: '\n' :: (ind l ++ (renderStr k ++ ':' :: ' ' :: (renderP l v ++ renderPObjTail l t)))
end

/-- `serialize_prospects_json` from `export.rs`: one top-level array, the
`pretty` flag choosing between `to_string_pretty` and `to_string`. -/
def serialize_prospects_json (ps : List PyDict) (pretty : Bool) : String :=
  if pretty then String.mk (renderP 0 (.arr (prospectsJsonItems ps)))
  else String.mk (renderC (.arr (prospectsJsonItems ps)))

/-- JSON insignificant whitespace. -/
def jsonWs (c : Char) : Bool :=
  c = ' ' || c = '\n' || c = '\t' || c = '\r'

/-- One-pass whitespace eraser for JSON text: removes whitespace outside
string literals, tracking the in-string and after-backslash states. -/
def minifyAux : Bool → Bool → List Char → List Char
  | _, _, [] => []
  | false, _, c :: cs =>
      if jsonWs c then minifyAux false false cs
      else c :: minifyAux (c = '"') false cs
  | true, false, c :: cs =>
      if c = '\\' then c :: minifyAux true true cs
      else c :: minifyAux (c ≠ '"') false cs
  | true, true, c :: cs => c :: minifyAux true false cs

/-- Erase insignificant whitespace (whitespace outside string literals)
from a JSON document. -/
def jsonStripWs (s : String) : String :=
  String.mk (minifyAux false false s.data)

/-- The fixed social platform domain list `SOCIAL_DOMAINS` from
`metadata.rs`. -/
def SOCIAL_DOMAINS : List String :=
  ["facebook.com", "instagram.com", "twitter.com",
   "linkedin.com", "youtube.com", "tiktok.com"]

/-- Character-exact list prefix test. -/
def chkPfx : List Char → List Char → Bool
  | [], _ => true
  | _ :: _, [] => false
  | a :: ta, b :: tb => a = b && chkPfx ta tb

/-- Rust `str::contains` for a plain substring needle. -/
def hasSub (needle : List Char) : List Char → Bool
  | [] => chkPfx needle []
  | c :: rest => chkPfx needle (c :: rest) || hasSub needle rest

/-- Does an href qualify as a social link: it contains one of the known
social domains as a substring. -/
def isSocialHref (href : String) : Bool :=
  SOCIAL_DOMAINS.any fun d => hasSub d.data href.data

/-- The inner domain loop of the social-link collector: the first matching
domain pushes the href (when not already collected) and breaks; a matching
domain for an already collected href falls through to the next domain. -/
def socialInner (links : List String) (href : String) : List String → List String
  | [] => links
  | d :: ds =>
      if hasSub d.data href.data && !(links.contains href) then links ++ [href]
      else socialInner links href ds

/-- The social-link collection loop of `extract_html_metadata`, over the
href attributes of the document's link elements in document order. -/
def collectSocial (hrefs : List String) : List String :=
  hrefs.foldl (fun links href => socialInner links href SOCIAL_DOMAINS) []

/-- First-occurrence-wins deduplication: the spec's description of the
social-link list. -/
def dedupFirst : List String → List String
  | [] => []
  | x :: xs => x :: dedupFirst (xs.filter fun y => y ≠ x)
termination_by l => l.length
decreasing_by exact Nat.lt_succ_of_le (List.length_filter_le _ _)

/-- The parse artifacts `extract_html_metadata` reads from the scraper
crate's parsed document (an external collaborator, not part of this
repository): the first title element's concatenated text, the first
meta-description content attribute, and the href attributes of all link
elements with an href, in document order. -/
structure ParsedDoc where
  titleText : Option String
  metaContent : Option String
  hrefs : List String

/-- The result dict of `extract_html_metadata`. -/
structure HtmlMeta where
  title : Option String
  meta_description : Option String
  social_links : List String
deriving DecidableEq

/-- `extract_html_metadata` from `metadata.rs`: empty input short-circuits
to the default result before any parsing; otherwise the title is trimmed
and dropped when empty, the description dropped when empty, and the social
links collected by the domain loop. -/
def extract_html_metadata (html : String) (doc : ParsedDoc) : HtmlMeta :=
  if html.isEmpty then ⟨Option.none, Option.none, []⟩
  else
    ⟨(doc.titleText.map String.trim).filter (fun s => !s.isEmpty),
     doc.metaContent.filter (fun s => !s.isEmpty),
     collectSocial doc.hrefs⟩

/-- Split a character list at newlines. -/
def splitNl : List Char → List (List Char)
  | [] => [[]]
  | c :: cs =>
      if c = '\n' then [] :: splitNl cs
      else
        match splitNl cs with
        | [] => [[c]]
        | l :: ls => (c :: l) :: ls

/-- The lines of a string (text between newline terminators). -/
def linesOf (s : String) : List String :=
  (splitNl s.data).map String.mk

/-- The first record of the end-to-end scenario in the spec: Acme Cafe. -/
def acmeRecord : PyDict :=
  [("name", .str "Acme Cafe"), ("found_in_ads", .bool true),
   ("rating", .float (.finite (mkRat 9 2))), ("review_count", .int 12),
   ("fit_score", .int 80), ("priority_score", .float (.finite (mkRat 9127 100))),
   ("signals", .dict [("cms", .str "Wordpress"), ("has_google_analytics", .bool true)])]

/-- The second record of the end-to-end scenario: Beta Shop, nothing else. -/
def betaRecord : PyDict :=
  [("name", .str "Beta Shop")]

theorem strData_append (s t : String) : (s ++ t).data = s.data ++ t.data := by
  cases s; cases t; rfl

/-- C1: the CSV output of `serialize_prospects_csv` always begins with the
fixed header line naming the 17 columns in their fixed order, and the data
record written for any prospect consists of exactly 17 fields. -/
theorem csv_header_and_field_count (ps : List PyDict) :
    serialize_prospects_csv ps =
      "name,website,phone,address,emails,rating,review_count,fit_score,opportunity_score,priority_score,opportunity_notes,found_in_ads,found_in_maps,found_in_organic,cms,has_google_analytics,has_booking_system\n"
        ++ strConcat (ps.map fun p => csvLine (prospectCsvRecord p))
    ∧ CSV_FIELDS.length = 17
    ∧ ∀ p : PyDict, (prospectCsvRecord p).length = 17 := by
  refine ⟨?_, by decide, fun p => rfl⟩
  unfold serialize_prospects_csv
  rw [show csvLine CSV_FIELDS =
    "name,website,phone,address,emails,rating,review_count,fit_score,opportunity_score,priority_score,opportunity_notes,found_in_ads,found_in_maps,found_in_organic,cms,has_google_analytics,has_booking_system\n"
    from by decide]

/-- C2 counterexample: in the spec's two-record scenario the second data
row (line index 2 of the output) is not the claimed sixteen-field literal:
the code also writes empty cells for the absent rating and review_count,
so the claimed row is missing one empty cell. -/
theorem csv_scenario_row2_differs :
    (linesOf (serialize_prospects_csv [acmeRecord, betaRecord])).getD 2 "" ≠
      "Beta Shop,,,,,,0,0,0.0,,No,No,No,,No,No" := by decide

/-- C2 amended: in the two-record scenario, data row 1 is exactly the
claimed literal, and data row 2 is
`Beta Shop,,,,,,,0,0,0.0,,No,No,No,,No,No` (seventeen fields: the claimed
row with one more empty cell, both rating and review_count rendering
empty). -/
theorem csv_scenario_rows :
    (linesOf (serialize_prospects_csv [acmeRecord, betaRecord])).getD 1 "" =
      "Acme Cafe,,,,,4.5,12,80,0,91.3,,Yes,No,No,Wordpress,Yes,No"
    ∧ (linesOf (serialize_prospects_csv [acmeRecord, betaRecord])).getD 2 "" =
      "Beta Shop,,,,,,,0,0,0.0,,No,No,No,,No,No" := by decide

theorem strListM_none_of_mem :
    ∀ xs : List PyVal, (∃ u ∈ xs, pyStrOnly u = Option.none) →
      strListM xs = Option.none := by
  intro xs
  induction xs with
  | nil => rintro ⟨u, hu, _⟩; cases hu
  | cons x t ih =>
      rintro ⟨u, hu, hf⟩
      rcases List.mem_cons.mp hu with h | h
      · subst h; simp [strListM, hf]
      · cases hfx : pyStrOnly x <;> simp [strListM, hfx, ih ⟨u, h, hf⟩]

/-- C3: every field coercion operation is a total function, and it resolves
a missing key and a stored value of the wrong type to the same
absent/default result: `none` for the optional extractors, `false` for the
required boolean, `[]` for the string list (also when a single list element
has the wrong type). -/
theorem coercion_defaults (m : PyDict) (key : String) :
    (m.get key = Option.none →
      extract_opt_string m key = Option.none ∧
      extract_opt_f64 m key = Option.none ∧
      extract_opt_i64 m key = Option.none ∧
      extract_bool m key = false ∧
      extract_opt_bool m key = Option.none ∧
      extract_string_list m key = [])
    ∧ (∀ v : PyVal, m.get key = some v →
      ((∀ s, v ≠ .str s) → v ≠ .none → extract_opt_string m key = Option.none)
      ∧ ((∀ x, v ≠ .float x) → (∀ n, v ≠ .int n) → (∀ b, v ≠ .bool b) → v ≠ .none →
          extract_opt_f64 m key = Option.none)
      ∧ ((∀ n, v ≠ .int n) → (∀ b, v ≠ .bool b) → v ≠ .none →
          extract_opt_i64 m key = Option.none)
      ∧ ((∀ b, v ≠ .bool b) → extract_bool m key = false)
      ∧ ((∀ b, v ≠ .bool b) → v ≠ .none → extract_opt_bool m key = Option.none)
      ∧ ((∀ xs, v ≠ .list xs) → v ≠ .none → extract_string_list m key = [])
      ∧ (∀ xs, v = .list xs → (∃ u ∈ xs, ∀ s, u ≠ .str s) →
          extract_string_list m key = [])) := by
  constructor
  · intro h
    simp [extract_opt_string, extract_opt_f64, extract_opt_i64, extract_bool,
      extract_opt_bool, extract_string_list, h]
  · intro v hv
    refine ⟨fun hstr hnone => ?_, fun hfl hint hb hnone => ?_, fun hint hb hnone => ?_,
      fun hb => ?_, fun hb hnone => ?_, fun hlist hnone => ?_, fun xs hxs hbad => ?_⟩
    · cases v <;> simp_all [extract_opt_string, pyExtractOptString]
    · cases v <;> simp_all [extract_opt_f64, pyExtractOptF64]
    · cases v <;> simp_all [extract_opt_i64, pyExtractOptI64]
    · cases v <;> simp_all [extract_bool, pyExtractBool]
    · cases v <;> simp_all [extract_opt_bool, pyExtractOptBool]
    · cases v <;> simp_all [extract_string_list, pyExtractStringList]
    · subst hxs
      obtain ⟨u, hu, hustr⟩ := hbad
      have hnone : pyStrOnly u = Option.none := by
        cases u <;> simp_all [pyStrOnly]
      simp [extract_string_list, hv, pyExtractStringList,
        strListM_none_of_mem _ ⟨u, hu, hnone⟩]

/-- C3 witness: the coercion contract evaluated on a record storing an int
under key `k`: the absent key and the ill-typed value both give defaults. -/
theorem coercion_defaults_witness :
    extract_opt_string [("k", PyVal.int 3)] "absent" = Option.none ∧
    extract_bool [("k", PyVal.int 3)] "absent" = false ∧
    extract_opt_string [("k", PyVal.int 3)] "k" = Option.none ∧
    extract_bool [("k", PyVal.int 3)] "k" = false ∧
    extract_string_list [("k", PyVal.int 3)] "k" = [] ∧
    extract_string_list [("e", PyVal.list [PyVal.str "a", PyVal.int 7])] "e" = [] := by
  refine ⟨((coercion_defaults [("k", PyVal.int 3)] "absent").1 rfl).1,
    ((coercion_defaults [("k", PyVal.int 3)] "absent").1 rfl).2.2.2.1,
    (((coercion_defaults [("k", PyVal.int 3)] "k").2 (PyVal.int 3) rfl).1
      (fun s h => PyVal.noConfusion h) (fun h => PyVal.noConfusion h)),
    ((((coercion_defaults [("k", PyVal.int 3)] "k").2 (PyVal.int 3) rfl).2.2.2.1)
      (fun b h => PyVal.noConfusion h)),
    ((((coercion_defaults [("k", PyVal.int 3)] "k").2 (PyVal.int 3) rfl).2.2.2.2.2.1)
      (fun xs h => PyVal.noConfusion h) (fun h => PyVal.noConfusion h)),
    ((((coercion_defaults [("e", PyVal.list [PyVal.str "a", PyVal.int 7])] "e").2
        (PyVal.list [PyVal.str "a", PyVal.int 7]) rfl).2.2.2.2.2.2) _ rfl
      ⟨PyVal.int 7, by simp, fun s h => PyVal.noConfusion h⟩)⟩

theorem extract_signals_some_iff (p : PyDict) (d : List (String × PyVal)) :
    extract_signals p = some d ↔ p.get "signals" = some (.dict d) := by
  unfold extract_signals
  cases h : p.get "signals" with
  | none => simp
  | some v => cases v <;> simp [pyExtractDict]

/-- C5: the emitted JSON object contains the `signals` key iff the record
stores a signals dict; a record with no signals dict gets an empty CSV cms
cell and `No` in both the analytics and booking columns; a present signals
dict with no cms entry yields JSON `signals.cms = null` and an empty CSV
cms cell. -/
theorem signals_presence (p : PyDict) :
    (((prospect_to_json_value p).getKey? "signals").isSome ↔
      ∃ d : List (String × PyVal), p.get "signals" = some (.dict d))
    ∧ ((∀ d : List (String × PyVal), p.get "signals" ≠ some (.dict d)) →
        (prospectCsvRecord p).getD 14 "" = "" ∧
        (prospectCsvRecord p).getD 15 "" = "No" ∧
        (prospectCsvRecord p).getD 16 "" = "No")
    ∧ (∀ d : List (String × PyVal), p.get "signals" = some (.dict d) →
        PyDict.get d "cms" = Option.none →
        ((prospect_to_json_value p).getKey? "signals").bind (fun s => s.getKey? "cms") =
          some .null
        ∧ (prospectCsvRecord p).getD 14 "" = "") := by
  cases hx : extract_signals p with
  | some sig =>
      have hstore : p.get "signals" = some (.dict sig) :=
        (extract_signals_some_iff p sig).mp hx
      have hkey : (prospect_to_json_value p).getKey? "signals" =
          some (signalsToJson sig) := by
        simp [prospect_to_json_value, Json.getKey?, JsonObj.lookup, hx]
      refine ⟨?_, ?_, ?_⟩
      · simp [hkey]
        exact ⟨sig, hstore⟩
      · intro hno; exact absurd hstore (hno sig)
      · intro d hd hcms
        have hdsig : sig = d := by
          rw [hstore] at hd
          injection hd with h
          injection h
        subst hdsig
        have hcmse : extract_opt_string sig "cms" = Option.none := by
          simp [extract_opt_string, hcms]
        constructor
        · rw [hkey]
          simp [signalsToJson, Json.getKey?, JsonObj.lookup, hcmse, json_opt_str]
        · show ((extract_signals p).bind fun s => extract_opt_string s "cms").getD "" = ""
          rw [hx]
          simp [hcmse]
  | none =>
      have hno : ∀ d : List (String × PyVal), p.get "signals" ≠ some (.dict d) := by
        intro d hd
        have h := (extract_signals_some_iff p d).mpr hd
        rw [hx] at h
        cases h
      have hkey : (prospect_to_json_value p).getKey? "signals" = Option.none := by
        simp [prospect_to_json_value, Json.getKey?, JsonObj.lookup, hx]
      refine ⟨?_, ?_, ?_⟩
      · simp [hkey]
        intro d hd; exact absurd hd (hno d)
      · intro _
        refine ⟨?_, ?_, ?_⟩
        · show ((extract_signals p).bind fun s => extract_opt_string s "cms").getD "" = ""
          rw [hx]; rfl
        · show yes_no (((extract_signals p).map fun s =>
              (extract_opt_bool s "has_google_analytics").getD false).getD false) = "No"
          rw [hx]; rfl
        · show yes_no (((extract_signals p).map fun s =>
              (extract_opt_bool s "has_booking_system").getD false).getD false) = "No"
          rw [hx]; rfl
      · intro d hd; exact absurd hd (hno d)

/-- C5 witness: a record with a signals dict lacking cms, and a record with
no signals dict. -/
theorem signals_presence_witness :
    (((prospect_to_json_value [("signals", PyVal.dict [("reachable", PyVal.bool true)])]).getKey?
        "signals").isSome = true)
    ∧ ((prospect_to_json_value [("signals", PyVal.dict [("reachable", PyVal.bool true)])]).getKey?
        "signals").bind (fun s => s.getKey? "cms") = some .null
    ∧ (prospectCsvRecord [("name", PyVal.str "x")]).getD 14 "" = ""
    ∧ (prospectCsvRecord [("name", PyVal.str "x")]).getD 15 "" = "No"
    ∧ (prospectCsvRecord [("name", PyVal.str "x")]).getD 16 "" = "No" := by
  have h1 := (signals_presence [("signals", PyVal.dict [("reachable", PyVal.bool true)])]).1
  have h3 := (signals_presence [("signals", PyVal.dict [("reachable", PyVal.bool true)])]).2.2
    [("reachable", PyVal.bool true)] rfl rfl
  have h2 := (signals_presence [("name", PyVal.str "x")]).2.1
    (by intro d hd; cases hd)
  exact ⟨h1.mpr ⟨_, rfl⟩, h3.1, h2.1, h2.2.1, h2.2.2⟩

/-- C9: the float-to-JSON-number conversion is guarded and total: the
`from_f64` guard refuses exactly the non-finite values, and a record whose
rating or priority_score is non-finite gets JSON null for that field
instead of a panic or invalid JSON. -/
theorem nonfinite_floats_null (p : PyDict) (v : F64) :
    (numberFromF64 v = Option.none ↔ (v = .nan ∨ v = .inf ∨ v = .neginf))
    ∧ (extract_opt_f64 p "rating" = some v → numberFromF64 v = Option.none →
        ((prospect_to_json_value p).getKey? "google_business").bind
          (fun g => g.getKey? "rating") = some .null)
    ∧ (extract_opt_f64 p "priority_score" = some v → numberFromF64 v = Option.none →
        ((prospect_to_json_value p).getKey? "scores").bind
          (fun g => g.getKey? "priority") = some .null) := by
  refine ⟨?_, ?_, ?_⟩
  · cases v <;> simp [numberFromF64]
  · intro hv hnf
    show some (json_opt_f64 (extract_opt_f64 p "rating")) = some Json.null
    rw [hv]
    cases v <;> simp_all [json_opt_f64, jsonOfF64, numberFromF64]
  · intro hv hnf
    show some (jsonOfF64 (((extract_opt_f64 p "priority_score").map roundTo2).getD
      (.finite 0))) = some Json.null
    rw [hv]
    cases v <;> simp_all [jsonOfF64, numberFromF64, roundTo2]

/-- C9 witness: NaN rating and infinite priority both serialize to null. -/
theorem nonfinite_floats_null_witness :
    ((prospect_to_json_value [("rating", PyVal.float F64.nan),
        ("priority_score", PyVal.float F64.inf)]).getKey? "google_business").bind
      (fun g => g.getKey? "rating") = some Json.null
    ∧ ((prospect_to_json_value [("rating", PyVal.float F64.nan),
        ("priority_score", PyVal.float F64.inf)]).getKey? "scores").bind
      (fun g => g.getKey? "priority") = some Json.null :=
  ⟨(nonfinite_floats_null [("rating", PyVal.float F64.nan),
      ("priority_score", PyVal.float F64.inf)] F64.nan).2.1 rfl rfl,
   (nonfinite_floats_null [("rating", PyVal.float F64.nan),
      ("priority_score", PyVal.float F64.inf)] F64.inf).2.2 rfl rfl⟩

theorem int_nearest_unique {x : ℚ} {n : ℤ} (h : |x - n| ≤ 1 / 2) (z : ℤ) :
    |x - n| ≤ |x - z| := by
  rcases eq_or_ne z n with rfl | hz
  · exact le_refl _
  · have h1 : (1 : ℚ) ≤ |(z : ℚ) - n| := by
      have hzn : (1 : ℤ) ≤ |z - n| := Int.one_le_abs (sub_ne_zero.mpr hz)
      have hc : ((1 : ℤ) : ℚ) ≤ ((|z - n| : ℤ) : ℚ) := Int.cast_le.mpr hzn
      push_cast at hc
      linarith
    have htri : |(z : ℚ) - n| ≤ |x - n| + |x - z| := by
      rw [show ((z : ℚ) - n) = (x - n) - (x - z) from by ring]
      exact abs_sub _ _
    linarith

theorem abs_div_sub_le_half {a n b : ℤ} (hb : 0 < b) (h : 2 * |a - n * b| ≤ b) :
    |(a : ℚ) / b - n| ≤ 1 / 2 := by
  have hbq : (0 : ℚ) < b := by exact_mod_cast hb
  have key : (a : ℚ) / b - n = ((a - n * b : ℤ) : ℚ) / b := by
    push_cast
    field_simp
    ring
  rw [key, abs_div, abs_of_pos hbq, div_le_div_iff₀ hbq (by norm_num : (0 : ℚ) < 2)]
  have hc : ((2 * |a - n * b| : ℤ) : ℚ) ≤ ((b : ℤ) : ℚ) := Int.cast_le.mpr h
  push_cast at hc ⊢
  linarith

theorem nearestHE_close (a b : ℤ) (hb : 0 < b) :
    |(a : ℚ) / b - nearestHE a b| ≤ 1 / 2 := by
  have hr0 : 0 ≤ a % b := Int.emod_nonneg a (ne_of_gt hb)
  have hrb : a % b < b := Int.emod_lt_of_pos a hb
  have hsub : a - a / b * b = a % b := by rw [Int.emod_def]; ring
  have hsub2 : a - (a / b + 1) * b = a % b - b := by rw [Int.emod_def]; ring
  unfold nearestHE
  split_ifs with h1 h2 h3
  · refine abs_div_sub_le_half hb ?_
    rw [abs_of_nonneg (by rw [hsub]; exact hr0), hsub]; omega
  · refine abs_div_sub_le_half hb ?_
    rw [abs_of_nonpos (by rw [hsub2]; omega), hsub2]; omega
  · refine abs_div_sub_le_half hb ?_
    rw [abs_of_nonneg (by rw [hsub]; exact hr0), hsub]; omega
  · refine abs_div_sub_le_half hb ?_
    rw [abs_of_nonpos (by rw [hsub2]; omega), hsub2]; omega

theorem nearestHA_close (a b : ℤ) (hb : 0 < b) :
    |(a : ℚ) / b - nearestHA a b| ≤ 1 / 2 := by
  have hr0 : 0 ≤ a % b := Int.emod_nonneg a (ne_of_gt hb)
  have hrb : a % b < b := Int.emod_lt_of_pos a hb
  have hsub : a - a / b * b = a % b := by rw [Int.emod_def]; ring
  have hsub2 : a - (a / b + 1) * b = a % b - b := by rw [Int.emod_def]; ring
  unfold nearestHA
  split_ifs with h1 h2 h3
  · refine abs_div_sub_le_half hb ?_
    rw [abs_of_nonneg (by rw [hsub]; exact hr0), hsub]; omega
  · refine abs_div_sub_le_half hb ?_
    rw [abs_of_nonpos (by rw [hsub2]; omega), hsub2]; omega
  · refine abs_div_sub_le_half hb ?_
    rw [abs_of_nonpos (by rw [hsub2]; omega), hsub2]; omega
  · refine abs_div_sub_le_half hb ?_
    rw [abs_of_nonneg (by rw [hsub]; exact hr0), hsub]; omega

theorem scaled_nearest_le (q c : ℚ) (hc : 0 < c) (n z : ℤ)
    (hclose : |c * q - n| ≤ 1 / 2) :
    |q - (n : ℚ) / c| ≤ |q - (z : ℚ) / c| := by
  have hz := int_nearest_unique hclose z
  have e1 : |q - (n : ℚ) / c| = |c * q - n| / c := by
    rw [show q - (n : ℚ) / c = (c * q - n) / c from by field_simp; ring, abs_div,
      abs_of_pos hc]
  have e2 : |q - (z : ℚ) / c| = |c * q - z| / c := by
    rw [show q - (z : ℚ) / c = (c * q - z) / c from by field_simp; ring, abs_div,
      abs_of_pos hc]
  rw [e1, e2]
  gcongr

theorem scaled_num_div_den (q : ℚ) (m : ℤ) :
    ((m * q.num : ℤ) : ℚ) / (((q.den : ℤ)) : ℚ) = (m : ℚ) * q := by
  push_cast
  rw [mul_div_assoc, Rat.num_div_den]

theorem strExt {s t : String} (h : s.data = t.data) : s = t := by
  cases s; cases t; exact congrArg String.mk h

theorem strAppend_assoc (a b c : String) : a ++ b ++ c = a ++ (b ++ c) :=
  strExt (by simp [strData_append])

theorem digitChar_mod (n : Nat) : digitChar n = digitChar (n % 10) := by
  unfold digitChar
  rw [Nat.mod_mod_of_dvd n (dvd_refl 10)]

theorem natCharsAux_digits :
    ∀ fuel n : Nat, ∀ c ∈ natCharsAux fuel n, ∃ d, d < 10 ∧ c = digitChar d := by
  intro fuel
  induction fuel with
  | zero =>
      intro n c hc
      simp [natCharsAux] at hc
      exact ⟨n % 10, Nat.mod_lt _ (by norm_num), by rw [hc, digitChar_mod]⟩
  | succ f ih =>
      intro n c hc
      by_cases h : n < 10
      · simp [natCharsAux, h] at hc
        exact ⟨n % 10, Nat.mod_lt _ (by norm_num), by rw [hc, digitChar_mod]⟩
      · simp [natCharsAux, h] at hc
        rcases hc with hc | hc
        · exact ih _ c hc
        · exact ⟨n % 10, Nat.mod_lt _ (by norm_num), by rw [hc, digitChar_mod]⟩

theorem natChars_digits {n : Nat} {c : Char} (hc : c ∈ natChars n) :
    ∃ d, d < 10 ∧ c = digitChar d :=
  natCharsAux_digits n n c hc

theorem digitChar_ne_dot : ∀ d, d < 10 → digitChar d ≠ '.' := by decide

theorem dot_not_mem_natChars (n : Nat) : ¬ '.' ∈ natChars n := by
  intro h
  obtain ⟨d, hd, hc⟩ := natChars_digits h
  exact digitChar_ne_dot d hd hc.symm

theorem natChars_lt_10 {d : Nat} (hd : d < 10) : natChars d = [digitChar d] := by
  cases d with
  | zero => rfl
  | succ n => simp [natChars, natCharsAux, hd]

theorem decExp?_den_one {q : ℚ} (h : q.den = 1) : decExp? q = some 0 := by
  unfold decExp?
  rw [show (1101 : Nat) = 1100 + 1 from rfl, List.range_succ_eq_map]
  exact List.find?_cons_of_pos _ (by simp [h])

theorem decExp?_spec {q : ℚ} {k : Nat} (h : decExp? q = some k) :
    10 ^ k % q.den = 0 := by
  have := List.find?_some h
  simpa using this

theorem decExp?_isSome {q : ℚ} (hex : ∃ k, k < 1101 ∧ 10 ^ k % q.den = 0) :
    (decExp? q).isSome := by
  obtain ⟨k, hk, hkd⟩ := hex
  unfold decExp?
  rw [List.find?_isSome]
  exact ⟨k, List.mem_range.mpr hk, by simpa using hkd⟩

theorem decExp?_ne_zero {q : ℚ} {k : Nat} (hden : q.den ≠ 1) (h : decExp? q = some k) :
    k ≠ 0 := by
  intro hk0
  subst hk0
  have h1 := decExp?_spec h
  rw [pow_zero] at h1
  exact hden (Nat.dvd_one.mp (Nat.dvd_of_mod_eq_zero h1))

theorem dot_decCore_iff (q : ℚ) (hsome : (decExp? q).isSome) :
    ('.' ∈ decCore q false ↔ q.den ≠ 1) := by
  obtain ⟨k, hk⟩ := Option.isSome_iff_exists.mp hsome
  unfold decCore
  rw [hk]
  by_cases hden : q.den = 1
  · have hk0 : k = 0 := by
      have h0 := decExp?_den_one hden
      rw [h0] at hk
      exact (Option.some.inj hk).symm
    subst hk0
    simp [hden]
    try exact dot_not_mem_natChars _
  · have hk0 : k ≠ 0 := decExp?_ne_zero hden hk
    simp [hk0, hden]

theorem decExp?_neg (q : ℚ) : decExp? (-q) = decExp? q := by
  unfold decExp?
  simp only [Rat.neg_den]

theorem dot_f64Display_iff (q : ℚ) (hsome : (decExp? q).isSome) :
    ('.' ∈ (f64Display (.finite q)).data ↔ q.den ≠ 1) := by
  show ('.' ∈ decRenderChars q false ↔ _)
  unfold decRenderChars
  split_ifs with hneg
  · have h2 := dot_decCore_iff (-q) (by rw [decExp?_neg]; exact hsome)
    rw [Rat.neg_den] at h2
    rw [List.mem_cons, h2]
    simp
  · exact dot_decCore_iff q hsome

/-- C10: a rating stored as an integral float renders in the CSV rating
cell through the default float Display with no decimal point and no
fractional digits; a non-integral decimal value always shows a decimal
point. -/
theorem rating_display_integral (p : PyDict) (q : ℚ)
    (hq : extract_opt_f64 p "rating" = some (.finite q))
    (hdec : ∃ k, k < 1101 ∧ 10 ^ k % q.den = 0) :
    (prospectCsvRecord p).getD 5 "" = f64Display (.finite q)
    ∧ (q.den = 1 → ¬ '.' ∈ (f64Display (.finite q)).data)
    ∧ (q.den ≠ 1 → '.' ∈ (f64Display (.finite q)).data) := by
  have hsome := decExp?_isSome hdec
  refine ⟨?_, ?_, ?_⟩
  · show ((extract_opt_f64 p "rating").map f64Display).getD "" = f64Display (.finite q)
    rw [hq]
    rfl
  · intro h1
    rw [dot_f64Display_iff q hsome]
    simp [h1]
  · intro h1
    exact (dot_f64Display_iff q hsome).mpr h1

/-- C10 witness: the integral rating 4.0 prints as `4`, while 4.5 prints
with a decimal point. -/
theorem rating_display_integral_witness :
    (prospectCsvRecord [("rating", PyVal.float (.finite 4))]).getD 5 "" = "4"
    ∧ ¬ '.' ∈ (f64Display (.finite 4)).data
    ∧ '.' ∈ (f64Display (.finite (mkRat 9 2))).data := by
  have h1 := rating_display_integral [("rating", PyVal.float (.finite 4))] 4 rfl
    ⟨0, by norm_num, by decide⟩
  have h2 := rating_display_integral [("rating", PyVal.float (.finite (mkRat 9 2)))]
    (mkRat 9 2) rfl ⟨1, by norm_num, by decide⟩
  exact ⟨h1.1.trans (by decide), h1.2.1 (by decide), h2.2.2 (by decide)⟩

/-- C4: the CSV priority cell prints the exact value rounded to the
nearest tenth (nearest-value rounding, ties to even) with exactly one
fractional digit, and the literal `0.0` when absent; the JSON
scores.priority is the exact value rounded to the nearest hundredth
(`f64::round`, nearest-value rounding with ties away from zero), and `0.0`
when absent. -/
theorem priority_formats (p : PyDict) (q : ℚ) :
    (extract_opt_f64 p "priority_score" = Option.none →
      (prospectCsvRecord p).getD 9 "" = "0.0"
      ∧ ((prospect_to_json_value p).getKey? "scores").bind (fun s => s.getKey? "priority")
          = some (.float 0))
    ∧ (extract_opt_f64 p "priority_score" = some (.finite q) →
      ((prospectCsvRecord p).getD 9 "" = fmtFixed1 (.finite q)
       ∧ (∃ s : String, ∃ d : Nat, d < 10 ∧
            fmtFixed1 (.finite q) = s ++ "." ++ natStr d ∧
            ¬ '.' ∈ s.data ∧ (natStr d).data = [digitChar d])
       ∧ (∀ z : ℤ, |q - (nearestHE (10 * q.num) (q.den : ℤ) : ℚ) / 10| ≤ |q - (z : ℚ) / 10|)
       ∧ ((prospect_to_json_value p).getKey? "scores").bind (fun s => s.getKey? "priority")
           = some (.float (mkRat (nearestHA (100 * q.num) (q.den : ℤ)) 100))
       ∧ (∀ z : ℤ, |q - (mkRat (nearestHA (100 * q.num) (q.den : ℤ)) 100 : ℚ)|
           ≤ |q - (z : ℚ) / 100|))) := by
  have hden : (0 : ℤ) < (q.den : ℤ) := by exact_mod_cast q.den_pos
  constructor
  · intro habs
    constructor
    · show ((extract_opt_f64 p "priority_score").map fmtFixed1).getD "0.0" = "0.0"
      rw [habs]
      rfl
    · show some (jsonOfF64 (((extract_opt_f64 p "priority_score").map roundTo2).getD
        (.finite 0))) = some (.float 0)
      rw [habs]
      rfl
  · intro hv
    refine ⟨?_, ?_, ?_, ?_, ?_⟩
    · show ((extract_opt_f64 p "priority_score").map fmtFixed1).getD "0.0" =
        fmtFixed1 (.finite q)
      rw [hv]
      rfl
    · rw [show fmtFixed1 (.finite q) =
          (if q.num < 0 then "-" ++ fmtFixed1Nonneg (-q) else fmtFixed1Nonneg q) from rfl]
      split_ifs with hneg
      · refine ⟨"-" ++ natStr ((nearestHE (10 * (-q).num) ((-q).den : ℤ)).toNat / 10),
          (nearestHE (10 * (-q).num) ((-q).den : ℤ)).toNat % 10,
          Nat.mod_lt _ (by norm_num), ?_, ?_, ?_⟩
        · exact strExt (by simp [fmtFixed1Nonneg, strData_append])
        · rw [strData_append]
          intro hmem
          rcases List.mem_append.mp hmem with hmem | hmem
          · simp at hmem
          · exact dot_not_mem_natChars _ hmem
        · exact natChars_lt_10 (Nat.mod_lt _ (by norm_num))
      · refine ⟨natStr ((nearestHE (10 * q.num) (q.den : ℤ)).toNat / 10),
          (nearestHE (10 * q.num) (q.den : ℤ)).toNat % 10,
          Nat.mod_lt _ (by norm_num), rfl, ?_, ?_⟩
        · exact fun hmem => dot_not_mem_natChars _ hmem
        · exact natChars_lt_10 (Nat.mod_lt _ (by norm_num))
    · intro z
      have hclose : |(10 : ℚ) * q - nearestHE (10 * q.num) (q.den : ℤ)| ≤ 1 / 2 := by
        have h := nearestHE_close (10 * q.num) (q.den : ℤ) hden
        rwa [scaled_num_div_den q 10] at h
      exact scaled_nearest_le q 10 (by norm_num) _ z hclose
    · show some (jsonOfF64 (((extract_opt_f64 p "priority_score").map roundTo2).getD
        (.finite 0))) = _
      rw [hv]
      rfl
    · intro z
      have hclose : |(100 : ℚ) * q - nearestHA (100 * q.num) (q.den : ℤ)| ≤ 1 / 2 := by
        have h := nearestHA_close (100 * q.num) (q.den : ℤ) hden
        rwa [scaled_num_div_den q 100] at h
      have hmk : (mkRat (nearestHA (100 * q.num) (q.den : ℤ)) 100 : ℚ) =
          (nearestHA (100 * q.num) (q.den : ℤ) : ℚ) / 100 := by
        rw [Rat.mkRat_eq_div]
        norm_num
      rw [hmk]
      exact scaled_nearest_le q 100 (by norm_num) _ z hclose

/-- C4 witness: priority 83 prints as `83.0`, 83.46 as `83.5` in CSV; JSON
rounds 83.456 to 83.46; an absent priority gives `0.0` in both outputs. -/
theorem priority_formats_witness :
    (prospectCsvRecord [("priority_score", PyVal.float (.finite 83))]).getD 9 "" = "83.0"
    ∧ (prospectCsvRecord [("priority_score", PyVal.float (.finite (mkRat 8346 100)))]).getD 9 ""
        = "83.5"
    ∧ ((prospect_to_json_value [("priority_score", PyVal.float (.finite (mkRat 83456 1000)))]).getKey?
        "scores").bind (fun s => s.getKey? "priority") = some (.float (mkRat 8346 100))
    ∧ (prospectCsvRecord ([] : PyDict)).getD 9 "" = "0.0" := by
  have h1 := (priority_formats [("priority_score", PyVal.float (.finite 83))] 83).2 rfl
  have h2 := (priority_formats [("priority_score", PyVal.float (.finite (mkRat 8346 100)))]
    (mkRat 8346 100)).2 rfl
  have h3 := (priority_formats [("priority_score", PyVal.float (.finite (mkRat 83456 1000)))]
    (mkRat 83456 1000)).2 rfl
  have h4 := (priority_formats ([] : PyDict) 0).1 rfl
  exact ⟨h1.1.trans (by decide), h2.1.trans (by decide),
    h3.2.2.2.1.trans (by rfl), h4.1⟩

theorem csvEscape_no_nl {s : String} (h : ¬ '\n' ∈ s.data) :
    ¬ '\n' ∈ (csvEscape s).data := by
  unfold csvEscape
  split_ifs with hq
  · unfold csvQuote
    rw [strData_append, strData_append]
    intro hmem
    rcases List.mem_append.mp hmem with hmem | hmem
    · rcases List.mem_append.mp hmem with hmem | hmem
      · simp at hmem
      · obtain ⟨a, ha, hfa⟩ := List.mem_flatMap.mp hmem
        by_cases ha2 : a = '"'
        · simp [ha2] at hfa
        · simp [ha2] at hfa
          exact h (by rwa [← hfa] at ha)
    · simp at hmem
  · exact h

theorem strJoinSep_no_nl :
    ∀ l : List String, (∀ f ∈ l, ¬ '\n' ∈ f.data) →
      ¬ '\n' ∈ (strJoinSep "," l).data := by
  intro l
  induction l with
  | nil => intro _ h; simp [strJoinSep] at h
  | cons x xs ih =>
      intro hall h
      cases xs with
      | nil => exact hall x (by simp) (by simpa [strJoinSep] using h)
      | cons y t =>
          rw [show strJoinSep "," (x :: y :: t) = x ++ "," ++ strJoinSep "," (y :: t)
            from rfl, strData_append, strData_append] at h
          rcases List.mem_append.mp h with h | h
          · rcases List.mem_append.mp h with h | h
            · exact hall x (by simp) h
            · simp at h
          · exact ih (fun f hf => hall f (by simp [hf])) h

theorem csvLine_count_nl (fields : List String)
    (h : ∀ f ∈ fields, ¬ '\n' ∈ f.data) :
    (csvLine fields).data.count '\n' = 1 := by
  unfold csvLine
  rw [strData_append, List.count_append]
  have h1 : (strJoinSep "," (fields.map csvEscape)).data.count '\n' = 0 := by
    rw [List.count_eq_zero]
    apply strJoinSep_no_nl
    intro f hf
    obtain ⟨g, hg, rfl⟩ := List.mem_map.mp hf
    exact csvEscape_no_nl (h g hg)
  rw [h1]
  rfl

theorem strConcat_count_nl :
    ∀ l : List String, (∀ s ∈ l, s.data.count '\n' = 1) →
      (strConcat l).data.count '\n' = l.length := by
  intro l
  induction l with
  | nil => intro _; rfl
  | cons x xs ih =>
      intro hall
      rw [show strConcat (x :: xs) = x ++ strConcat xs from rfl, strData_append,
        List.count_append, hall x (by simp), ih (fun s hs => hall s (by simp [hs])),
        List.length_cons]
      omega

theorem length_ofList : ∀ l : List Json, (JsonArr.ofList l).length = l.length := by
  intro l
  induction l with
  | nil => rfl
  | cons x xs ih => simp [JsonArr.ofList, JsonArr.length, ih]

theorem toList_ofList : ∀ l : List Json, (JsonArr.ofList l).toList = l := by
  intro l
  induction l with
  | nil => rfl
  | cons x xs ih => simp [JsonArr.ofList, JsonArr.toList, ih]

/-- C6: for a non-empty record list of length N whose rendered CSV cells
contain no newline, the CSV output consists of exactly N+1
newline-terminated lines (header plus one per record) and the JSON items
array has exactly N elements, the i-th being the encoding of the i-th
record: no sorting, filtering, or deduplication. -/
theorem output_shape (ps : List PyDict) (_hne : ps ≠ [])
    (hsafe : ∀ p ∈ ps, ∀ f ∈ prospectCsvRecord p, ¬ '\n' ∈ f.data) :
    (serialize_prospects_csv ps).data.count '\n' = ps.length + 1
    ∧ (prospectsJsonItems ps).length = ps.length
    ∧ (prospectsJsonItems ps).toList = ps.map prospect_to_json_value := by
  refine ⟨?_, ?_, ?_⟩
  · unfold serialize_prospects_csv
    rw [strData_append, List.count_append,
      show (csvLine CSV_FIELDS).data.count '\n' = 1 from by decide,
      strConcat_count_nl _ ?_]
    · rw [List.length_map]
      omega
    · intro s hs
      obtain ⟨p, hp, rfl⟩ := List.mem_map.mp hs
      exact csvLine_count_nl _ (hsafe p hp)
  · unfold prospectsJsonItems
    rw [length_ofList, List.length_map]
  · unfold prospectsJsonItems
    rw [toList_ofList]

/-- C6 witness: the one-record list gives 2 CSV lines and 1 JSON element. -/
theorem output_shape_witness :
    (serialize_prospects_csv [betaRecord]).data.count '\n' = 2
    ∧ (prospectsJsonItems [betaRecord]).length = 1 := by
  have h := output_shape [betaRecord] (by simp) (by decide)
  exact ⟨h.1, h.2.1⟩

theorem socialInner_eq (links : List String) (href : String) :
    ∀ ds : List String, socialInner links href ds =
      if (ds.any fun d => hasSub d.data href.data) && !(links.contains href)
      then links ++ [href] else links := by
  intro ds
  induction ds with
  | nil => simp [socialInner]
  | cons d t ih =>
      by_cases hs : hasSub d.data href.data <;> by_cases hc : href ∈ links <;>
        simp [socialInner, hs, hc, ih, List.any_cons]

theorem filter_exclude (t acc : List String) (h : String) :
    (t.filter fun x => isSocialHref x).filter (fun x => !(acc ++ [h]).contains x) =
      ((t.filter fun x => isSocialHref x).filter fun x => !acc.contains x).filter
        fun y => decide (y ≠ h) := by
  rw [List.filter_filter, List.filter_filter, List.filter_filter]
  apply List.filter_congr
  intro x hx
  by_cases hxh : x = h <;> by_cases hxa : x ∈ acc <;> by_cases hxs : isSocialHref x <;>
    simp [hxh, hxa, hxs, List.mem_append]

theorem collectSocial_go :
    ∀ (hrefs : List String) (acc : List String),
      List.foldl (fun links href => socialInner links href SOCIAL_DOMAINS) acc hrefs =
        acc ++ dedupFirst ((hrefs.filter fun h => isSocialHref h).filter
          fun h => !(acc.contains h)) := by
  intro hrefs
  induction hrefs with
  | nil => intro acc; simp [dedupFirst]
  | cons h t ih =>
      intro acc
      rw [List.foldl_cons, socialInner_eq]
      by_cases hq : isSocialHref h
      · have hq' : (SOCIAL_DOMAINS.any fun d => hasSub d.data h.data) = true := hq
        by_cases hc : h ∈ acc
        · rw [if_neg (by simp [hq', hc]), ih acc,
            List.filter_cons_of_pos (by exact hq),
            List.filter_cons_of_neg (by simp [hc])]
        · rw [if_pos (by simp [hq', hc]), ih (acc ++ [h]),
            List.filter_cons_of_pos (by exact hq),
            List.filter_cons_of_pos (by simp [hc]),
            dedupFirst, filter_exclude t acc h, List.append_assoc]
          rfl
      · have hq' : (SOCIAL_DOMAINS.any fun d => hasSub d.data h.data) = false := by
          simpa [isSocialHref] using hq
        rw [if_neg (by simp [hq']), ih acc,
          List.filter_cons_of_neg (by simpa [isSocialHref] using hq)]

theorem collectSocial_eq (hrefs : List String) :
    collectSocial hrefs = dedupFirst (hrefs.filter fun h => isSocialHref h) := by
  unfold collectSocial
  rw [collectSocial_go hrefs []]
  simp

theorem dedupFirst_subset : ∀ l : List String, ∀ x, x ∈ dedupFirst l → x ∈ l := by
  intro l
  induction l using dedupFirst.induct with
  | case1 => intro x hx; simp [dedupFirst] at hx
  | case2 y ys ih =>
      intro x hx
      rw [dedupFirst] at hx
      rcases List.mem_cons.mp hx with rfl | hx
      · simp
      · exact List.mem_cons_of_mem _ (List.mem_of_mem_filter (ih x hx))

theorem dedupFirst_nodup : ∀ l : List String, (dedupFirst l).Nodup := by
  intro l
  induction l using dedupFirst.induct with
  | case1 => simp [dedupFirst]
  | case2 y ys ih =>
      rw [dedupFirst]
      refine List.nodup_cons.mpr ⟨?_, ih⟩
      intro hy
      have hmem := dedupFirst_subset _ _ hy
      have := List.of_mem_filter hmem
      simp at this

/-- C8: empty HTML input yields the all-absent default result without
error; for every parsed document the social-link list is exactly the
qualifying hrefs (href containing one of the fixed social domains as a
substring) deduplicated by exact string equality with the first occurrence
winning and document order preserved, so each link appears at most once
even when it matches several domains. -/
theorem metadata_contract (html : String) (doc : ParsedDoc) :
    (html = "" → extract_html_metadata html doc = ⟨Option.none, Option.none, []⟩)
    ∧ (html ≠ "" → (extract_html_metadata html doc).social_links =
        dedupFirst (doc.hrefs.filter fun h => isSocialHref h))
    ∧ ((extract_html_metadata html doc).social_links).Nodup := by
  refine ⟨?_, ?_, ?_⟩
  · intro h
    subst h
    rfl
  · intro h
    have hne : html.isEmpty = false := by
      cases hx : html.isEmpty with
      | false => rfl
      | true => exact absurd ((String.isEmpty_iff html).mp hx) h
    unfold extract_html_metadata
    rw [hne]
    simp [collectSocial_eq]
  · unfold extract_html_metadata
    split_ifs with hempty
    · simp
    · show (collectSocial doc.hrefs).Nodup
      rw [collectSocial_eq]
      exact dedupFirst_nodup _

/-- C8 witness: the empty input default, and a document whose hrefs contain
a duplicate social link and a link matching two domains at once. -/
theorem metadata_contract_witness :
    extract_html_metadata "" ⟨some "t", some "d", ["https://facebook.com/x"]⟩ =
      ⟨Option.none, Option.none, []⟩
    ∧ (extract_html_metadata "<html>"
        ⟨Option.none, Option.none,
         ["https://facebook.com/x", "https://nowhere.example",
          "https://facebook.com/x", "https://twitter.com/linkedin.com"]⟩).social_links =
      ["https://facebook.com/x", "https://twitter.com/linkedin.com"]
    ∧ ((extract_html_metadata "<html>"
        ⟨Option.none, Option.none,
         ["https://facebook.com/x", "https://nowhere.example",
          "https://facebook.com/x", "https://twitter.com/linkedin.com"]⟩).social_links).Nodup := by
  have h1 := (metadata_contract "" ⟨some "t", some "d", ["https://facebook.com/x"]⟩).1 rfl
  have h3 := (metadata_contract "<html>"
    ⟨Option.none, Option.none,
     ["https://facebook.com/x", "https://nowhere.example",
      "https://facebook.com/x", "https://twitter.com/linkedin.com"]⟩).2.2
  refine ⟨h1, ?_, h3⟩
  show collectSocial ["https://facebook.com/x", "https://nowhere.example",
    "https://facebook.com/x", "https://twitter.com/linkedin.com"] = _
  decide

theorem minify_plain {c : Char} (hw : jsonWs c = false) (hq : c ≠ '"') (cs : List Char) :
    minifyAux false false (c :: cs) = c :: minifyAux false false cs := by
  simp [minifyAux, hw, hq]

theorem minify_ws {c : Char} (hw : jsonWs c = true) (cs : List Char) :
    minifyAux false false (c :: cs) = minifyAux false false cs := by
  simp [minifyAux, hw]

theorem minify_plain_chunk :
    ∀ {t : List Char}, (∀ c ∈ t, jsonWs c = false ∧ c ≠ '"') →
      ∀ rest, minifyAux false false (t ++ rest) = t ++ minifyAux false false rest := by
  intro t
  induction t with
  | nil => intro _ rest; rfl
  | cons c cs ih =>
      intro h rest
      rw [List.cons_append, minify_plain (h c (by simp)).1 (h c (by simp)).2,
        ih (fun x hx => h x (by simp [hx])) rest, List.cons_append]

theorem minify_ws_chunk :
    ∀ {t : List Char}, (∀ c ∈ t, jsonWs c = true) →
      ∀ rest, minifyAux false false (t ++ rest) = minifyAux false false rest := by
  intro t
  induction t with
  | nil => intro _ rest; rfl
  | cons c cs ih =>
      intro h rest
      rw [List.cons_append, minify_ws (h c (by simp)),
        ih (fun x hx => h x (by simp [hx])) rest]

theorem minify_ind (l : Nat) (rest : List Char) :
    minifyAux false false (ind l ++ rest) = minifyAux false false rest :=
  minify_ws_chunk
    (fun c hc => by rw [List.eq_of_mem_replicate hc]; rfl) rest

theorem hexSafe : ∀ r, r < 16 →
    (if r < 10 then Char.ofNat (48 + r) else Char.ofNat (87 + r)) ≠ '\\' ∧
    (if r < 10 then Char.ofNat (48 + r) else Char.ofNat (87 + r)) ≠ '"' := by decide

theorem hexDigitChar_safe (d : Nat) : hexDigitChar d ≠ '\\' ∧ hexDigitChar d ≠ '"' :=
  hexSafe (d % 16) (Nat.mod_lt _ (by norm_num))

theorem minify_instr_escChar (c : Char) (rest : List Char) :
    minifyAux true false (escChar c ++ rest) = escChar c ++ minifyAux true false rest := by
  unfold escChar
  split_ifs with h1 h2 h3 h4 h5 h6 h7 h8
  · simp [minifyAux]
  · simp [minifyAux]
  · simp [minifyAux]
  · simp [minifyAux]
  · simp [minifyAux]
  · simp [minifyAux]
  · simp [minifyAux]
  · simp [minifyAux, (hexDigitChar_safe (c.toNat / 16)).1,
      (hexDigitChar_safe (c.toNat / 16)).2, (hexDigitChar_safe (c.toNat % 16)).1,
      (hexDigitChar_safe (c.toNat % 16)).2]
  · simp [minifyAux, h1, h2]

theorem minify_escStr (s : List Char) :
    ∀ rest, minifyAux true false (escStr s ++ rest) = escStr s ++ minifyAux true false rest := by
  induction s with
  | nil => intro rest; rfl
  | cons c cs ih =>
      intro rest
      rw [show escStr (c :: cs) = escChar c ++ escStr cs from rfl, List.append_assoc,
        minify_instr_escChar, ih rest, List.append_assoc]

theorem minify_renderStr (s : String) (rest : List Char) :
    minifyAux false false (renderStr s ++ rest) = renderStr s ++ minifyAux false false rest := by
  unfold renderStr
  rw [List.cons_append, List.append_assoc,
    show minifyAux false false ('"' :: (escStr s.data ++ (['"'] ++ rest))) =
      '"' :: minifyAux true false (escStr s.data ++ (['"'] ++ rest)) from by
        simp [minifyAux, jsonWs],
    minify_escStr,
    show (['"'] ++ rest : List Char) = '"' :: rest from rfl,
    show minifyAux true false ('"' :: rest) = '"' :: minifyAux false false rest from by
      simp [minifyAux]]
  simp

theorem digit_plain : ∀ d, d < 10 → jsonWs (digitChar d) = false ∧ digitChar d ≠ '"' := by
  decide

theorem natChars_plain {n : Nat} : ∀ c ∈ natChars n, jsonWs c = false ∧ c ≠ '"' := by
  intro c hc
  obtain ⟨d, hd, rfl⟩ := natChars_digits hc
  exact digit_plain d hd

theorem intChars_plain {i : ℤ} : ∀ c ∈ intChars i, jsonWs c = false ∧ c ≠ '"' := by
  intro c hc
  unfold intChars at hc
  split_ifs at hc
  · rcases List.mem_cons.mp hc with rfl | hc
    · exact ⟨rfl, by decide⟩
    · exact natChars_plain c hc
  · exact natChars_plain c hc

theorem padZeros_plain {k : Nat} {ds : List Char}
    (h : ∀ c ∈ ds, jsonWs c = false ∧ c ≠ '"') :
    ∀ c ∈ padZeros k ds, jsonWs c = false ∧ c ≠ '"' := by
  intro c hc
  unfold padZeros at hc
  rcases List.mem_append.mp hc with hc | hc
  · rw [List.eq_of_mem_replicate hc]
    exact ⟨rfl, by decide⟩
  · exact h c hc

theorem decCore_plain (q : ℚ) (fd : Bool) :
    ∀ c ∈ decCore q fd, jsonWs c = false ∧ c ≠ '"' := by
  intro c hc
  unfold decCore at hc
  cases hk : decExp? q with
  | some k =>
      rw [hk] at hc
      dsimp only at hc
      by_cases h0 : k = 0
      · rw [if_pos h0] at hc
        rcases List.mem_append.mp hc with hc | hc
        · exact natChars_plain c hc
        · cases fd with
          | true =>
              simp at hc
              rcases hc with rfl | rfl
              · exact ⟨rfl, by decide⟩
              · exact ⟨rfl, by decide⟩
          | false => simp at hc
      · rw [if_neg h0] at hc
        rcases List.mem_append.mp hc with hc | hc
        · exact natChars_plain c hc
        · rcases List.mem_cons.mp hc with rfl | hc
          · exact ⟨rfl, by decide⟩
          · exact padZeros_plain (fun x hx => natChars_plain x hx) c hc
  | none =>
      rw [hk] at hc
      dsimp only at hc
      rcases List.mem_append.mp hc with hc | hc
      · exact natChars_plain c hc
      · rcases List.mem_cons.mp hc with rfl | hc
        · exact ⟨rfl, by decide⟩
        · exact natChars_plain c hc

theorem decRenderChars_plain (q : ℚ) (fd : Bool) :
    ∀ c ∈ decRenderChars q fd, jsonWs c = false ∧ c ≠ '"' := by
  intro c hc
  unfold decRenderChars at hc
  split_ifs at hc
  · rcases List.mem_cons.mp hc with rfl | hc
    · exact ⟨rfl, by decide⟩
    · exact decCore_plain _ _ c hc
  · exact decCore_plain _ _ c hc

mutual
theorem minify_renderP : ∀ (v : Json) (l : Nat) (rest : List Char),
    minifyAux false false (renderP l v ++ rest) = renderC v ++ minifyAux false false rest
  | .null, _, rest => by
      show minifyAux false false ("null".data ++ rest) =
        "null".data ++ minifyAux false false rest
      exact minify_plain_chunk (by decide) rest
  | .bool true, _, rest => by
      show minifyAux false false ("true".data ++ rest) =
        "true".data ++ minifyAux false false rest
      exact minify_plain_chunk (by decide) rest
  | .bool false, _, rest => by
      show minifyAux false false ("false".data ++ rest) =
        "false".data ++ minifyAux false false rest
      exact minify_plain_chunk (by decide) rest
  | .int n, _, rest => minify_plain_chunk intChars_plain rest
  | .float q, _, rest => minify_plain_chunk (decRenderChars_plain q true) rest
  | .str s, _, rest => minify_renderStr s rest
  | .arr .nil, _, rest => by
      show minifyAux false false (['[', ']'] ++ rest) =
        ['[', ']'] ++ minifyAux false false rest
      exact minify_plain_chunk (by decide) rest
  | .arr (.cons h t), l, rest => by
      show minifyAux false false (('[' :: '\n' :: (ind (l + 1) ++ (renderP (l + 1) h ++
          (renderPArrTail (l + 1) t ++ ('\n' :: (ind l ++ [']'])))))) ++ rest) =
        ('[' :: (renderC h ++ (renderCArrTail t ++ [']']))) ++ minifyAux false false rest
      simp only [List.cons_append, List.append_assoc, List.nil_append]
      rw [minify_plain (by decide) (by decide), minify_ws (by decide), minify_ind,
        minify_renderP h (l + 1), minify_renderPArrTail t (l + 1),
        minify_ws (by decide), minify_ind, minify_plain (by decide) (by decide)]
  | .obj .nil, _, rest => by
      show minifyAux false false (['\x7b', '\x7d'] ++ rest) =
        ['\x7b', '\x7d'] ++ minifyAux false false rest
      exact minify_plain_chunk (by decide) rest
  | .obj (.cons k v t), l, rest => by
      show minifyAux false false (('\x7b' :: '\n' :: (ind (l + 1) ++ (renderStr k ++
          ':' :: ' ' :: (renderP (l + 1) v ++ (renderPObjTail (l + 1) t ++
          ('\n' :: (ind l ++ ['\x7d']))))))) ++ rest) =
        ('\x7b' :: (renderStr k ++ ':' :: (renderC v ++ (renderCObjTail t ++ ['\x7d'])))) ++
          minifyAux false false rest
      simp only [List.cons_append, List.append_assoc, List.nil_append]
      rw [minify_plain (by decide) (by decide), minify_ws (by decide), minify_ind,
        minify_renderStr, minify_plain (by decide) (by decide), minify_ws (by decide),
        minify_renderP v (l + 1), minify_renderPObjTail t (l + 1),
        minify_ws (by decide), minify_ind, minify_plain (by decide) (by decide)]
theorem minify_renderPArrTail : ∀ (xs : JsonArr) (l : Nat) (rest : List Char),
    minifyAux false false (renderPArrTail l xs ++ rest) =
      renderCArrTail xs ++ minifyAux false false rest
  | .nil, _, _ => rfl
  | .cons h t, l, rest => by
      show minifyAux false false ((',' :: '\n' :: (ind l ++ (renderP l h ++
          renderPArrTail l t))) ++ rest) =
        (',' :: (renderC h ++ renderCArrTail t)) ++ minifyAux false false rest
      simp only [List.cons_append, List.append_assoc, List.nil_append]
      rw [minify_plain (by decide) (by decide), minify_ws (by decide), minify_ind,
        minify_renderP h l, minify_renderPArrTail t l]
theorem minify_renderPObjTail : ∀ (xs : JsonObj) (l : Nat) (rest : List Char),
    minifyAux false false (renderPObjTail l xs ++ rest) =
      renderCObjTail xs ++ minifyAux false false rest
  | .nil, _, _ => rfl
  | .cons k v t, l, rest => by
      show minifyAux false false ((',' :: '\n' :: (ind l ++ (renderStr k ++ ':' :: ' ' ::
          (renderP l v ++ renderPObjTail l t)))) ++ rest) =
        (',' :: (renderStr k ++ ':' :: (renderC v ++ renderCObjTail t))) ++
          minifyAux false false rest
      simp only [List.cons_append, List.append_assoc, List.nil_append]
      rw [minify_plain (by decide) (by decide), minify_ws (by decide), minify_ind,
        minify_renderStr, minify_plain (by decide) (by decide), minify_ws (by decide),
        minify_renderP v l, minify_renderPObjTail t l]
end

/-- C7: the pretty and compact JSON encodings differ only in whitespace
outside string literals: erasing that whitespace from the pretty output
yields exactly the compact output, so both encode the same JSON value. -/
theorem pretty_compact_equiv (ps : List PyDict) :
    jsonStripWs (serialize_prospects_json ps true) = serialize_prospects_json ps false := by
  have h := minify_renderP (.arr (prospectsJsonItems ps)) 0 []
  rw [List.append_nil, show minifyAux false false ([] : List Char) = [] from rfl,
    List.append_nil] at h
  show String.mk (minifyAux false false (renderP 0 (.arr (prospectsJsonItems ps)))) =
    String.mk (renderC (.arr (prospectsJsonItems ps)))
  exact congrArg String.mk h
